import Mathlib

/-!
Verification of the `const_utils` library: a shallow embedding of
`src/const_utils/utils.py`, `src/const_utils/utility_funcs.py` and
`src/const_utils/const_class.py`, together with theorems settling the
specification's claims about it.

Modelling conventions:
* Python strings are Lean `String`s; the Python character-class methods
  (`str.isidentifier`, `str.isupper`, `str.startswith`) are embedded with
  their ASCII semantics (`Char.isAlpha`, `Char.isUpper`, ... are ASCII
  predicates in Lean), which is the fragment the library and its spec
  exercise.
* Python attribute dictionaries and namespaces are association lists
  `List (String × PyVal)`; Python sets of names are `List String` with
  set-style update discipline.
* Raising an exception is returning `Except.error`; a pure model cannot
  mutate, so an operation that mutates state in Python returns the new
  state, and an error result is exactly "no mutation happened".
-/

/-- ASCII model of Python "cased character": an upper- or lowercase letter. -/
def isCased (c : Char) : Bool := c.isUpper || c.isLower

/-- ASCII model of Python `str.isupper`: every cased character is uppercase
and there is at least one cased character. -/
def pyIsUpper (s : String) : Bool :=
  s.data.all (fun c => !(isCased c) || c.isUpper) && s.data.any (fun c => isCased c)

/-- First character of a Python identifier (ASCII): a letter or underscore. -/
def isIdentStart (c : Char) : Bool := c.isAlpha || c == '_'

/-- Continuation character of a Python identifier (ASCII): letter, digit or
underscore. -/
def isIdentCont (c : Char) : Bool := c.isAlphanum || c == '_'

/-- ASCII model of Python `str.isidentifier`: nonempty, the first character
is a letter or underscore, the rest are letters, digits or underscores. -/
def pyIsIdentifier (s : String) : Bool :=
  match s.data with
  | [] => false
  | c :: cs => isIdentStart c && cs.all isIdentCont

/-- Model of Python `name.startswith('_')`. -/
def pyStartsWithUnderscore (s : String) : Bool :=
  match s.data with
  | [] => false
  | c :: _ => c == '_'

/-- `is_const` from `src/const_utils/utils.py` (identical in
`utility_funcs.py`):
`name.isidentifier() and name.isupper() and not name.startswith('_')`. -/
def is_const (name : String) : Bool :=
  pyIsIdentifier name && pyIsUpper name && !(pyStartsWithUnderscore name)

lemma isCased_of_isAlpha {c : Char} (h : c.isAlpha = true) : isCased c = true := by
  simpa [isCased, Char.isAlpha] using h

/-- C2: `is_const name` is true iff `name` is a valid identifier, every
cased character in `name` is uppercase, and `name` does not start with an
underscore; and `is_const` of the empty string is false. -/
theorem C2_is_const_characterisation :
    (∀ name : String,
      is_const name = true ↔
        (pyIsIdentifier name = true ∧
         (∀ c ∈ name.data, isCased c = true → c.isUpper = true) ∧
         pyStartsWithUnderscore name = false))
    ∧ is_const "" = false := by
  constructor
  · intro name
    constructor
    · intro h
      simp only [is_const, Bool.and_eq_true, Bool.not_eq_true'] at h
      obtain ⟨⟨hid, hup⟩, hu⟩ := h
      refine ⟨hid, ?_, hu⟩
      intro c hc hcased
      simp only [pyIsUpper, Bool.and_eq_true, List.all_eq_true] at hup
      have := hup.1 c hc
      simp only [Bool.or_eq_true, Bool.not_eq_true'] at this
      rcases this with h1 | h1
      · rw [hcased] at h1; exact absurd h1 (by simp)
      · exact h1
    · rintro ⟨hid, hup, hu⟩
      simp only [is_const, Bool.and_eq_true, Bool.not_eq_true']
      refine ⟨⟨hid, ?_⟩, hu⟩
      simp only [pyIsUpper, Bool.and_eq_true, List.all_eq_true, List.any_eq_true]
      constructor
      · intro c hc
        by_cases hcase : isCased c = true
        · simp [hup c hc hcase]
        · simp [Bool.not_eq_true] at hcase
          simp [hcase]
      · -- the first character witnesses a cased character: it is a letter,
        -- because the string is an identifier not starting with '_'
        unfold pyIsIdentifier at hid
        unfold pyStartsWithUnderscore at hu
        cases hdata : name.data with
        | nil => rw [hdata] at hid; exact absurd hid (by simp)
        | cons c cs =>
          rw [hdata] at hid hu
          simp only [Bool.and_eq_true] at hid
          have hstart := hid.1
          simp only [isIdentStart, Bool.or_eq_true] at hstart
          rcases hstart with halpha | hund
          · exact ⟨c, by simp [hdata], isCased_of_isAlpha halpha⟩
          · change (c == '_') = false at hu
            rw [hund] at hu; exact absurd hu (by simp)
  · rfl

/-- Python runtime values, as an opaque-payload datatype: the library never
inspects values, it only stores and returns them.  `float` carries the exact
rational the literal denotes; `fn` tags a function value by a label. -/
inductive PyVal where
  | num : Int → PyVal
  | float : ℚ → PyVal
  | str : String → PyVal
  | pyNone : PyVal
  | fn : String → PyVal
deriving DecidableEq

/-- A Python namespace (a class `__dict__`, a module's attributes, or a
frame's locals/globals): an association list from names to values. -/
abbrev NS := List (String × PyVal)

/-- Dictionary lookup: value of the first entry with the given key. -/
def lookupNS : NS → String → Option PyVal
  | [], _ => none
  | (k, v) :: rest, k' => if k = k' then some v else lookupNS rest k'

/-- Python `hasattr` / `in`: the namespace has an entry under the key. -/
def hasKey (ns : NS) (k : String) : Bool := (lookupNS ns k).isSome

/-- Dictionary/attribute assignment: overwrite the entry if the key is
present, append a new entry otherwise. -/
def assocSet : NS → String → PyVal → NS
  | [], k, v => [(k, v)]
  | (k', v') :: rest, k, v =>
      if k' = k then (k, v) :: rest else (k', v') :: assocSet rest k v

/-- Dictionary deletion: drop the entry with the given key. -/
def eraseKey : NS → String → NS
  | [], _ => []
  | (k', v') :: rest, k =>
      if k' = k then eraseKey rest k else (k', v') :: eraseKey rest k

/-- The Python exceptions the library can raise. -/
inductive PyError where
  | valueError : String → PyError
  | runtimeError : String → PyError
  | attributeError : String → PyError
  | importError : String → PyError
deriving DecidableEq

/-- A constant-capable class (an instance of `ConstClassMeta`).  `ownAttrs`
is the class's own `__dict__`; `inherited` holds every attribute visible on
the class through its bases; `constants` is this class's entry in
`ConstClassMeta._class_constant_cache`. -/
structure ConstClass where
  name : String
  ownAttrs : NS
  inherited : NS
  constants : List String
deriving DecidableEq

/-- `dir(const_class)`: all attribute names visible on the class, its own
and the inherited ones (deduplicated; `dir`'s sorting is irrelevant to the
set semantics of the cache). -/
def dirNames (own inh : NS) : List String :=
  (own.map Prod.fst ++ inh.map Prod.fst).dedup

/-- `ConstClassMeta.__new__`: create the class and record into the cache the
subset of `dir(const_class)` satisfying `is_const`. -/
def mkConstClass (nm : String) (own inh : NS) : ConstClass :=
  { name := nm, ownAttrs := own, inherited := inh,
    constants := (dirNames own inh).filter (fun n => is_const n) }

/-- `getattr(cls, name)`: the class's own attribute if present, else the
inherited one; `none` models `AttributeError`. -/
def ConstClass.getattr? (c : ConstClass) (nm : String) : Option PyVal :=
  match lookupNS c.ownAttrs nm with
  | some v => some v
  | none => lookupNS c.inherited nm

/-- The `ValueError` message of `ConstClassMeta.__getitem__`, with
`', '.join(class_constants)` enumerating the registered names. -/
def noSuchConstMsg (clsName item : String) (available : List String) : String :=
  "Class " ++ clsName ++ " does not contain a constant named " ++ item ++
    ". Existing constants are " ++ String.intercalate ", " available

/-- `ConstClassMeta.__getitem__`: return the live attribute value when the
name is registered, otherwise raise a `ValueError` listing the registered
constants. -/
def ConstClass.getitem (c : ConstClass) (item : String) : Except PyError PyVal :=
  if item ∈ c.constants then
    match c.getattr? item with
    | some v => .ok v
    | none => .error (.attributeError item)
  else
    .error (.valueError (noSuchConstMsg c.name item c.constants))

/-- `ConstClassMeta.__setattr__`: perform the normal assignment (on the
class's own `__dict__`), then register the name if it is a constant name not
already in the cache.  The assignment never touches the cache, so checking
the cache before or after assigning is the same. -/
def ConstClass.setattr (c : ConstClass) (nm : String) (v : PyVal) : ConstClass :=
  if is_const nm = true ∧ nm ∉ c.constants then
    { c with ownAttrs := assocSet c.ownAttrs nm v, constants := nm :: c.constants }
  else
    { c with ownAttrs := assocSet c.ownAttrs nm v }

/-- `type.__delattr__` (the `super().__delattr__(name)` call): delete the
attribute from the class's own `__dict__`, raising `AttributeError` when it
is not there (an inherited attribute cannot be deleted through the class). -/
def ConstClass.type_delattr (c : ConstClass) (nm : String) : Except PyError ConstClass :=
  if hasKey c.ownAttrs nm then
    .ok { c with ownAttrs := eraseKey c.ownAttrs nm }
  else
    .error (.attributeError nm)

/-- `ConstClassMeta.__delattr__`: perform the normal deletion first, then —
only if it succeeded — remove the name from the cache if present. -/
def ConstClass.delattr (c : ConstClass) (nm : String) : Except PyError ConstClass :=
  match c.type_delattr nm with
  | .error e => .error e
  | .ok c1 =>
      .ok (if nm ∈ c1.constants then
             { c1 with constants := c1.constants.filter (fun n => n ≠ nm) }
           else c1)

/-- The dict comprehension of `ConstClassMeta.as_dict`, recursing over a
list of names: pair each name with the class's current live value, `none`
modelling the (unreachable in normal use) `AttributeError` from `getattr`. -/
def ConstClass.constMap (c : ConstClass) : List String → Option NS
  | [] => some []
  | n :: rest =>
      match c.getattr? n, c.constMap rest with
      | some v, some m => some ((n, v) :: m)
      | _, _ => none

/-- `ConstClassMeta.as_dict`: a fresh mapping from each registered name to
the class's current live value. -/
def ConstClass.as_dict (c : ConstClass) : Option NS :=
  c.constMap c.constants

/-- `ConstClassMeta.const_names`: the keys of `as_dict()`. -/
def ConstClass.const_names (c : ConstClass) : Option (List String) :=
  (c.as_dict).map (List.map Prod.fst)

/-- `ConstClassMeta.const_values`: the values of `as_dict()`. -/
def ConstClass.const_values (c : ConstClass) : Option (List PyVal) :=
  (c.as_dict).map (List.map Prod.snd)

/-- The attribute names of a CPython `dict` instance (methods and dunder
attributes).  The exact membership of this list is irrelevant to every
theorem below: all that is used is that each entry is a dunder or
all-lowercase name, so `hasattr(some_dict, name)` is false for every
constant name. -/
def dictAttrNames : List String :=
  ["__class__", "__contains__", "__delattr__", "__delitem__", "__dir__",
   "__doc__", "__eq__", "__format__", "__ge__", "__getattribute__",
   "__getitem__", "__gt__", "__hash__", "__init__", "__init_subclass__",
   "__iter__", "__le__", "__len__", "__lt__", "__ne__", "__new__",
   "__reduce__", "__reduce_ex__", "__repr__", "__reversed__", "__setattr__",
   "__setitem__", "__sizeof__", "__str__", "__subclasshook__",
   "clear", "copy", "fromkeys", "get", "items", "keys", "pop", "popitem",
   "setdefault", "update", "values"]

/-- `hasattr(d, name)` for a plain `dict` object `d`: true only for the
dict type's own attributes — never for the dict's keys. -/
def dictObjHasAttr (name : String) : Bool := decide (name ∈ dictAttrNames)

/-- A target namespace of `ConstClassMeta.__apply`: either a module object
(whose `hasattr` consults the module's attribute dict) or a caller's
locals/globals — a plain `dict` object, whose `hasattr` consults the dict
type's attributes and never its keys. -/
inductive Target where
  | module : NS → Target
  | scopeDict : NS → Target
deriving DecidableEq

/-- The entries of the underlying namespace. -/
def Target.ns : Target → NS
  | .module ns => ns
  | .scopeDict ns => ns

/-- Python `hasattr(namespace, name)` as `ConstClassMeta.__apply` calls it:
attribute lookup on the namespace object, which is key membership for a
module but a dict-type attribute check — never key membership — for a
locals/globals dict. -/
def Target.hasattr : Target → String → Bool
  | .module ns, name => hasKey ns name
  | .scopeDict _, name => dictObjHasAttr name

/-- The `f_assign` write: `module.__setattr__` in module mode,
`namespace.__setitem__` in scope mode — both store under the key. -/
def Target.assign : Target → String → PyVal → Target
  | .module ns, k, v => .module (assocSet ns k v)
  | .scopeDict ns, k, v => .scopeDict (assocSet ns k v)

/-- The loop body of `ConstClassMeta.__apply`, recursing over the list of
registered names: read the live value, skip when `override` is false and
`hasattr(namespace, name)` holds, otherwise assign.  `none` models the
`AttributeError` a failing `getattr` would raise. -/
def ConstClass.applyList (c : ConstClass) (override : Bool) :
    List String → Target → Option Target
  | [], t => some t
  | n :: rest, t =>
      match c.getattr? n with
      | none => none
      | some v =>
          if !override && t.hasattr n then
            c.applyList override rest t
          else
            c.applyList override rest (t.assign n v)

/-- `ConstClassMeta.__apply`: run the loop over the class's registered
constant names. -/
def ConstClass.applyPriv (c : ConstClass) (override : Bool) (t : Target) :
    Option Target :=
  c.applyList override c.constants t

/-- `ConstClassMeta.apply_to_module`: resolve the module by name (the
`modules` map stands for `importlib.import_module`, `none` modelling a
failing module resolution) and write the constants into its attributes. -/
def ConstClass.apply_to_module (c : ConstClass) (modules : String → Option NS)
    (module_name : String) (override : Bool) : Except PyError NS :=
  match modules module_name with
  | none => .error (.importError module_name)
  | some ns =>
      match c.applyPriv override (.module ns) with
      | some t => .ok t.ns
      | none => .error (.attributeError "getattr")

/-- A caller's stack frame, with its local and global namespaces. -/
structure Frame where
  f_locals : NS
  f_globals : NS
deriving DecidableEq

/-- The frame `inspect.currentframe()` returns inside `apply`: its `f_back`
is the caller's frame, or `none` at the bottom of the stack. -/
structure CurrentFrame where
  f_back : Option Frame
deriving DecidableEq

/-- `ConstClassMeta.apply`: raise `RuntimeError` when no current frame is
available; select the caller's locals or globals; write the constants into
that namespace.  Accessing `f_locals`/`f_globals` on an absent caller frame
is Python's `AttributeError` on `None`. -/
def ConstClass.apply (c : ConstClass) (current_frame : Option CurrentFrame)
    (lcl override : Bool) : Except PyError NS :=
  match current_frame with
  | none => .error (.runtimeError "Cannot retrieve current frame")
  | some cf =>
      match cf.f_back with
      | none => .error (.attributeError (if lcl then "f_locals" else "f_globals"))
      | some caller =>
          let ns := if lcl then caller.f_locals else caller.f_globals
          match c.applyPriv override (.scopeDict ns) with
          | some t => .ok t.ns
          | none => .error (.attributeError "getattr")

/-- A post-creation mutation of a constant-capable class. -/
inductive ClassOp where
  | set : String → PyVal → ClassOp
  | del : String → ClassOp
deriving DecidableEq

/-- Run a sequence of attribute mutations; a failed deletion raises in
Python and leaves the class unchanged, modelled by keeping the state. -/
def runOps (c : ConstClass) : List ClassOp → ConstClass
  | [] => c
  | .set n v :: ops => runOps (c.setattr n v) ops
  | .del n :: ops =>
      runOps (match c.delattr n with | .ok c' => c' | .error _ => c) ops

/-! ### Association-list lemmas -/

lemma lookupNS_assocSet_self (ns : NS) (k : String) (v : PyVal) :
    lookupNS (assocSet ns k v) k = some v := by
  induction ns with
  | nil => simp [assocSet, lookupNS]
  | cons p rest ih =>
      obtain ⟨k', v'⟩ := p
      by_cases h : k' = k
      · simp [assocSet, h, lookupNS]
      · simp [assocSet, h, lookupNS, ih]

lemma lookupNS_assocSet_ne (ns : NS) (k k' : String) (v : PyVal) (h : k' ≠ k) :
    lookupNS (assocSet ns k v) k' = lookupNS ns k' := by
  induction ns with
  | nil => simp [assocSet, lookupNS, (Ne.symm h)]
  | cons p rest ih =>
      obtain ⟨k'', v''⟩ := p
      by_cases h2 : k'' = k
      · subst h2
        simp [assocSet, lookupNS, (Ne.symm h)]
      · by_cases h3 : k'' = k'
        · subst h3
          simp [assocSet, h2, lookupNS]
        · simp [assocSet, h2, lookupNS, h3, ih]

lemma hasKey_assocSet_ne (ns : NS) (k k' : String) (v : PyVal) (h : k' ≠ k) :
    hasKey (assocSet ns k v) k' = hasKey ns k' := by
  simp [hasKey, lookupNS_assocSet_ne ns k k' v h]

lemma lookupNS_eraseKey_self (ns : NS) (k : String) :
    lookupNS (eraseKey ns k) k = none := by
  induction ns with
  | nil => simp [eraseKey, lookupNS]
  | cons p rest ih =>
      obtain ⟨k', v'⟩ := p
      by_cases h : k' = k
      · simp [eraseKey, h, ih]
      · simp [eraseKey, h, lookupNS, ih]

/-! ### `constMap` lemmas -/

lemma constMap_keys (c : ConstClass) :
    ∀ (l : List String) (m : NS), c.constMap l = some m → m.map Prod.fst = l := by
  intro l
  induction l with
  | nil =>
      intro m h
      simp [ConstClass.constMap] at h
      simp [← h]
  | cons n rest ih =>
      intro m h
      unfold ConstClass.constMap at h
      cases hg : c.getattr? n with
      | none => rw [hg] at h; exact absurd h (by simp)
      | some v =>
          rw [hg] at h
          cases hr : c.constMap rest with
          | none => rw [hr] at h; exact absurd h (by simp)
          | some m0 =>
              rw [hr] at h
              simp only [Option.some.injEq] at h
              subst h
              simp [ih m0 hr]

lemma constMap_lookup (c : ConstClass) (nm : String) (v : PyVal) :
    ∀ (l : List String) (m : NS), nm ∈ l → c.getattr? nm = some v →
      c.constMap l = some m → lookupNS m nm = some v := by
  intro l
  induction l with
  | nil => intro m hmem; exact absurd hmem (by simp)
  | cons n rest ih =>
      intro m hmem hget h
      unfold ConstClass.constMap at h
      cases hg : c.getattr? n with
      | none => rw [hg] at h; exact absurd h (by simp)
      | some v0 =>
          rw [hg] at h
          cases hr : c.constMap rest with
          | none => rw [hr] at h; exact absurd h (by simp)
          | some m0 =>
              rw [hr] at h
              simp only [Option.some.injEq] at h
              subst h
              by_cases hn : n = nm
              · subst hn
                rw [hget] at hg
                simp only [Option.some.injEq] at hg
                simp [lookupNS, hg]
              · have hmem' : nm ∈ rest := by
                  rcases List.mem_cons.mp hmem with h1 | h1
                  · exact absurd h1.symm hn
                  · exact h1
                simp [lookupNS, hn, ih m0 hmem' hget hr]

/-! ### `Target` and `applyList` lemmas -/

lemma dictObjHasAttr_of_const (name : String) (h : is_const name = true) :
    dictObjHasAttr name = false := by
  by_cases hd : dictObjHasAttr name = true
  · exfalso
    have hmem : name ∈ dictAttrNames := of_decide_eq_true hd
    have hall : dictAttrNames.all (fun n => !(is_const n)) = true := by decide
    have := List.all_eq_true.mp hall name hmem
    rw [h] at this
    exact absurd this (by decide)
  · simpa using hd

lemma Target.hasattr_assign_ne (t : Target) (k k' : String) (v : PyVal)
    (h : k' ≠ k) : (t.assign k v).hasattr k' = t.hasattr k' := by
  cases t with
  | module ns =>
      simp [Target.assign, Target.hasattr, hasKey_assocSet_ne ns k k' v h]
  | scopeDict ns => simp [Target.assign, Target.hasattr]

lemma Target.lookup_assign_self (t : Target) (k : String) (v : PyVal) :
    lookupNS ((t.assign k v).ns) k = some v := by
  cases t <;> simp [Target.assign, Target.ns, lookupNS_assocSet_self]

lemma Target.lookup_assign_ne (t : Target) (k k' : String) (v : PyVal)
    (h : k' ≠ k) : lookupNS ((t.assign k v).ns) k' = lookupNS t.ns k' := by
  cases t <;> simp [Target.assign, Target.ns, lookupNS_assocSet_ne _ _ _ _ h]

lemma applyList_keep (c : ConstClass) (name : String) :
    ∀ (l : List String) (t t' : Target),
      t.hasattr name = true →
      c.applyList false l t = some t' →
      lookupNS t'.ns name = lookupNS t.ns name ∧ t'.hasattr name = true := by
  intro l
  induction l with
  | nil =>
      intro t t' hkey h
      simp only [ConstClass.applyList, Option.some.injEq] at h
      subst h
      exact ⟨rfl, hkey⟩
  | cons n rest ih =>
      intro t t' hkey h
      unfold ConstClass.applyList at h
      cases hg : c.getattr? n with
      | none => rw [hg] at h; exact absurd h (by simp)
      | some v =>
          rw [hg] at h
          dsimp only at h
          simp only [Bool.not_false, Bool.true_and] at h
          by_cases hk : t.hasattr n = true
          · rw [if_pos hk] at h
            exact ih t t' hkey h
          · rw [if_neg hk] at h
            have hne : name ≠ n := by
              intro he; exact hk (he ▸ hkey)
            have h1 := Target.lookup_assign_ne t n name v hne
            have h2 : (t.assign n v).hasattr name = true := by
              rw [Target.hasattr_assign_ne t n name v hne]; exact hkey
            obtain ⟨ha, hb⟩ := ih (t.assign n v) t' h2 h
            exact ⟨by rw [ha, h1], hb⟩

lemma applyList_inv (c : ConstClass) (override : Bool) (name : String) :
    ∀ (l : List String) (t t' : Target),
      lookupNS t.ns name = c.getattr? name →
      c.applyList override l t = some t' →
      lookupNS t'.ns name = c.getattr? name := by
  intro l
  induction l with
  | nil =>
      intro t t' hinv h
      simp only [ConstClass.applyList, Option.some.injEq] at h
      subst h
      exact hinv
  | cons n rest ih =>
      intro t t' hinv h
      unfold ConstClass.applyList at h
      cases hg : c.getattr? n with
      | none => rw [hg] at h; exact absurd h (by simp)
      | some v =>
          rw [hg] at h
          dsimp only at h
          by_cases hc : (!override && t.hasattr n) = true
          · rw [if_pos hc] at h
            exact ih t t' hinv h
          · rw [if_neg hc] at h
            by_cases hn : n = name
            · subst hn
              have hinv' : lookupNS ((t.assign n v).ns) n = c.getattr? n := by
                rw [Target.lookup_assign_self, hg]
              exact ih (t.assign n v) t' hinv' h
            · have hinv' : lookupNS ((t.assign n v).ns) name = c.getattr? name := by
                rw [Target.lookup_assign_ne t n name v (Ne.symm hn)]
                exact hinv
              exact ih (t.assign n v) t' hinv' h

lemma applyList_write (c : ConstClass) (override : Bool) (name : String) :
    ∀ (l : List String) (t t' : Target),
      name ∈ l →
      (override = true ∨ t.hasattr name = false) →
      c.applyList override l t = some t' →
      lookupNS t'.ns name = c.getattr? name := by
  intro l
  induction l with
  | nil => intro t t' hmem; exact absurd hmem (by simp)
  | cons n rest ih =>
      intro t t' hmem hcond h
      unfold ConstClass.applyList at h
      cases hg : c.getattr? n with
      | none => rw [hg] at h; exact absurd h (by simp)
      | some v =>
          rw [hg] at h
          dsimp only at h
          by_cases hn : n = name
          · subst hn
            have hskip : ¬((!override && t.hasattr n) = true) := by
              rcases hcond with h1 | h1
              · simp [h1]
              · simp [h1]
            rw [if_neg hskip] at h
            have hinv : lookupNS ((t.assign n v).ns) n = c.getattr? n := by
              rw [Target.lookup_assign_self, hg]
            exact applyList_inv c override n rest (t.assign n v) t' hinv h
          · have hmem' : name ∈ rest := by
              rcases List.mem_cons.mp hmem with h1 | h1
              · exact absurd h1 (Ne.symm hn)
              · exact h1
            by_cases hc : (!override && t.hasattr n) = true
            · rw [if_pos hc] at h
              exact ih t t' hmem' hcond h
            · rw [if_neg hc] at h
              have hcond' : override = true ∨ (t.assign n v).hasattr name = false := by
                rcases hcond with h1 | h1
                · exact Or.inl h1
                · refine Or.inr ?_
                  rw [Target.hasattr_assign_ne t n name v (Ne.symm hn)]
                  exact h1
              exact ih (t.assign n v) t' hmem' hcond' h

/-- The override/skip semantics of `ConstClassMeta.__apply` on a target
namespace, in terms of the target's own `hasattr` behaviour. -/
lemma applyPriv_spec (c : ConstClass) (override : Bool) (name : String)
    (t t' : Target) (h : c.applyPriv override t = some t') :
    (override = false → t.hasattr name = true →
       lookupNS t'.ns name = lookupNS t.ns name) ∧
    (name ∈ c.constants → (override = true ∨ t.hasattr name = false) →
       lookupNS t'.ns name = c.getattr? name) := by
  constructor
  · intro hov hkey
    subst hov
    exact (applyList_keep c name c.constants t t' hkey h).1
  · intro hmem hcond
    exact applyList_write c override name c.constants t t' hmem hcond h

/-! ### Concrete instances used by the witnesses -/

/-- The spec's running example: a constant-capable class with a constant
`PI`, a non-constant `helper`, and an inherited non-constant attribute. -/
def MathConsts : ConstClass :=
  mkConstClass "MathConsts"
    [("PI", PyVal.float (314159/100000)), ("helper", PyVal.fn "helper")]
    [("__init__", PyVal.fn "object.__init__")]

/-- The state of `MathConsts` after `del MathConsts.PI`. -/
def MathConstsDel : ConstClass :=
  match MathConsts.delattr "PI" with
  | .ok c => c
  | .error _ => MathConsts

/-- A one-module import table: module `"target"` already defines `PI = 0`. -/
def modPI : String → Option NS :=
  fun s => if s = "target" then some [("PI", PyVal.num 0)] else none

/-! ### Claim theorems -/

/-- C5: at class-definition time the registered constant set is exactly the
subset of all attribute names visible on the class — the class's own and the
inherited ones — that satisfy `is_const`. -/
theorem C5_registry_at_creation (nm : String) (own inh : NS) (n : String) :
    n ∈ (mkConstClass nm own inh).constants ↔
      ((n ∈ own.map Prod.fst ∨ n ∈ inh.map Prod.fst) ∧ is_const n = true) := by
  simp [mkConstClass, dirNames, List.mem_filter, List.mem_dedup, List.mem_append]

/-- C4: item-lookup returns the current live attribute value for a
registered name, and fails on an unregistered name with a `ValueError`
whose message enumerates exactly the currently registered constant names. -/
theorem C4_getitem_semantics (c : ConstClass) (item : String) :
    (∀ v : PyVal, item ∈ c.constants → c.getattr? item = some v →
        c.getitem item = .ok v) ∧
    (item ∉ c.constants →
        c.getitem item = .error (.valueError (noSuchConstMsg c.name item c.constants))) := by
  constructor
  · intro v hmem hget
    simp [ConstClass.getitem, hmem, hget]
  · intro hmem
    simp [ConstClass.getitem, hmem]

/-- Witness for C4 at the `MathConsts` example. -/
theorem C4_getitem_semantics_witness :
    MathConsts.getitem "PI" = .ok (PyVal.float (314159/100000)) ∧
    MathConsts.getitem "helper" =
      .error (.valueError (noSuchConstMsg "MathConsts" "helper" ["PI"])) :=
  ⟨(C4_getitem_semantics MathConsts "PI").1 (PyVal.float (314159/100000))
      (by decide) rfl,
   (C4_getitem_semantics MathConsts "helper").2 (by decide)⟩

/-- C6: setting an attribute performs the normal assignment; if the name is
a constant name it is (or stays) registered, appears in the names and is
retrievable by lookup; if it is not a constant name the registry is
unchanged. -/
theorem C6_setattr_semantics (c : ConstClass) (nm : String) (v : PyVal) :
    (c.setattr nm v).getattr? nm = some v ∧
    (is_const nm = true →
        nm ∈ (c.setattr nm v).constants ∧
        (c.setattr nm v).getitem nm = .ok v ∧
        (∀ names, (c.setattr nm v).const_names = some names → nm ∈ names)) ∧
    (is_const nm = false → (c.setattr nm v).constants = c.constants) := by
  have hown : (c.setattr nm v).ownAttrs = assocSet c.ownAttrs nm v := by
    unfold ConstClass.setattr
    by_cases hc : is_const nm = true ∧ nm ∉ c.constants
    · rw [if_pos hc]
    · rw [if_neg hc]
  have hconsts : (c.setattr nm v).constants =
      (if is_const nm = true ∧ nm ∉ c.constants then nm :: c.constants
       else c.constants) := by
    unfold ConstClass.setattr
    by_cases hc : is_const nm = true ∧ nm ∉ c.constants
    · rw [if_pos hc, if_pos hc]
    · rw [if_neg hc, if_neg hc]
  have hget : (c.setattr nm v).getattr? nm = some v := by
    unfold ConstClass.getattr?
    rw [hown, lookupNS_assocSet_self]
  refine ⟨hget, ?_, ?_⟩
  · intro hconst
    have hmem : nm ∈ (c.setattr nm v).constants := by
      rw [hconsts]
      by_cases hin : nm ∈ c.constants
      · rw [if_neg (fun hc => hc.2 hin)]
        exact hin
      · rw [if_pos ⟨hconst, hin⟩]
        exact List.mem_cons_self nm _
    refine ⟨hmem, ?_, ?_⟩
    · simp [ConstClass.getitem, hmem, hget]
    · intro names hnames
      unfold ConstClass.const_names ConstClass.as_dict at hnames
      cases hm : (c.setattr nm v).constMap (c.setattr nm v).constants with
      | none => rw [hm] at hnames; exact absurd hnames (by simp)
      | some m =>
          rw [hm] at hnames
          simp only [Option.map_some', Option.some.injEq] at hnames
          subst hnames
          rw [constMap_keys _ _ m hm]
          exact hmem
  · intro hconst
    rw [hconsts, if_neg (fun hc => by rw [hconst] at hc; exact absurd hc.1 (by simp))]

/-- Witness for C6: adding `E = 2.71828` to `MathConsts` after definition. -/
theorem C6_setattr_semantics_witness :
    is_const "E" = true ∧
    "E" ∈ (MathConsts.setattr "E" (PyVal.float (271828/100000))).constants ∧
    (MathConsts.setattr "E" (PyVal.float (271828/100000))).getitem "E" =
      .ok (PyVal.float (271828/100000)) :=
  ⟨by decide,
   ((C6_setattr_semantics MathConsts "E" (PyVal.float (271828/100000))).2.1
      (by decide)).1,
   ((C6_setattr_semantics MathConsts "E" (PyVal.float (271828/100000))).2.1
      (by decide)).2.1⟩

/-- C7: a successful attribute deletion removes the name from the class's
own attributes and from the registry, so it disappears from the names and a
subsequent lookup fails with the unknown-constant `ValueError`. -/
theorem C7_delattr_semantics (c : ConstClass) (nm : String) (c' : ConstClass) :
    c.delattr nm = .ok c' →
      nm ∉ c'.constants ∧
      hasKey c'.ownAttrs nm = false ∧
      c'.getitem nm = .error (.valueError (noSuchConstMsg c'.name nm c'.constants)) ∧
      (∀ names, c'.const_names = some names → nm ∉ names) := by
  intro h
  have key : nm ∉ c'.constants ∧ c'.ownAttrs = eraseKey c.ownAttrs nm := by
    unfold ConstClass.delattr ConstClass.type_delattr at h
    by_cases hk : hasKey c.ownAttrs nm = true
    · rw [if_pos hk] at h
      dsimp only at h
      by_cases hin : nm ∈ c.constants
      · rw [if_pos hin] at h
        simp only [Except.ok.injEq] at h
        subst h
        refine ⟨?_, rfl⟩
        intro hcontra
        have := (List.mem_filter.mp hcontra).2
        simp at this
      · rw [if_neg hin] at h
        simp only [Except.ok.injEq] at h
        subst h
        exact ⟨hin, rfl⟩
    · rw [if_neg hk] at h
      exact absurd h (by simp)
  obtain ⟨hmem, hown⟩ := key
  refine ⟨hmem, ?_, ?_, ?_⟩
  · rw [hown]
    simp [hasKey, lookupNS_eraseKey_self]
  · simp [ConstClass.getitem, hmem]
  · intro names hnames
    unfold ConstClass.const_names ConstClass.as_dict at hnames
    cases hm : c'.constMap c'.constants with
    | none => rw [hm] at hnames; exact absurd hnames (by simp)
    | some m =>
        rw [hm] at hnames
        simp only [Option.map_some', Option.some.injEq] at hnames
        subst hnames
        rw [constMap_keys _ _ m hm]
        exact hmem

/-- Witness for C7: deleting `PI` from `MathConsts`. -/
theorem C7_delattr_semantics_witness :
    "PI" ∉ MathConstsDel.constants ∧
    MathConstsDel.getitem "PI" =
      .error (.valueError (noSuchConstMsg MathConstsDel.name "PI" MathConstsDel.constants)) :=
  ⟨(C7_delattr_semantics MathConsts "PI" MathConstsDel rfl).1,
   (C7_delattr_semantics MathConsts "PI" MathConstsDel rfl).2.2.1⟩

/-- C8: `as_dict` reads values live: after reassigning a registered
constant on the class, the mapping returned by any subsequent call pairs
that name with the new value. -/
theorem C8_as_dict_reads_live (c : ConstClass) (nm : String) (v : PyVal) (m : NS) :
    nm ∈ c.constants →
    (c.setattr nm v).as_dict = some m →
    lookupNS m nm = some v := by
  intro hmem hdict
  have hconsts : (c.setattr nm v).constants = c.constants := by
    unfold ConstClass.setattr
    rw [if_neg (fun hc => hc.2 hmem)]
  have hown : (c.setattr nm v).ownAttrs = assocSet c.ownAttrs nm v := by
    unfold ConstClass.setattr
    by_cases hc : is_const nm = true ∧ nm ∉ c.constants
    · rw [if_pos hc]
    · rw [if_neg hc]
  have hget : (c.setattr nm v).getattr? nm = some v := by
    unfold ConstClass.getattr?
    rw [hown, lookupNS_assocSet_self]
  unfold ConstClass.as_dict at hdict
  exact constMap_lookup _ nm v _ m (by rw [hconsts]; exact hmem) hget hdict

/-- Witness for C8: reassigning `PI` on `MathConsts` and reading
`as_dict()`. -/
theorem C8_as_dict_reads_live_witness :
    lookupNS [("PI", PyVal.num 42)] "PI" = some (PyVal.num 42) :=
  C8_as_dict_reads_live MathConsts "PI" (PyVal.num 42) [("PI", PyVal.num 42)]
    (by decide) rfl

lemma constants_all_mk (nm : String) (own inh : NS) :
    ((mkConstClass nm own inh).constants).all (fun n => is_const n) = true := by
  rw [List.all_eq_true]
  intro n hn
  exact (List.mem_filter.mp hn).2

lemma constants_all_setattr (c : ConstClass) (nm : String) (v : PyVal)
    (h : (c.constants).all (fun n => is_const n) = true) :
    ((c.setattr nm v).constants).all (fun n => is_const n) = true := by
  unfold ConstClass.setattr
  by_cases hc : is_const nm = true ∧ nm ∉ c.constants
  · rw [if_pos hc]
    dsimp only
    simp [List.all_cons, hc.1, h]
  · rw [if_neg hc]
    dsimp only
    exact h

lemma constants_all_delattr (c : ConstClass) (nm : String)
    (h : (c.constants).all (fun n => is_const n) = true)
    (c' : ConstClass) (hdel : c.delattr nm = .ok c') :
    (c'.constants).all (fun n => is_const n) = true := by
  unfold ConstClass.delattr ConstClass.type_delattr at hdel
  by_cases hk : hasKey c.ownAttrs nm = true
  · rw [if_pos hk] at hdel
    dsimp only at hdel
    by_cases hin : nm ∈ c.constants
    · rw [if_pos hin] at hdel
      simp only [Except.ok.injEq] at hdel
      subst hdel
      dsimp only
      rw [List.all_eq_true] at h ⊢
      intro n hn
      exact h n (List.mem_filter.mp hn).1
    · rw [if_neg hin] at hdel
      simp only [Except.ok.injEq] at hdel
      subst hdel
      exact h
  · rw [if_neg hk] at hdel
    exact absurd hdel (by simp)

lemma constants_all_runOps (ops : List ClassOp) :
    ∀ c : ConstClass, (c.constants).all (fun n => is_const n) = true →
      ((runOps c ops).constants).all (fun n => is_const n) = true := by
  induction ops with
  | nil => intro c h; exact h
  | cons op rest ih =>
      intro c h
      cases op with
      | set n v =>
          simp only [runOps]
          exact ih _ (constants_all_setattr c n v h)
      | del n =>
          simp only [runOps]
          cases hdel : c.delattr n with
          | ok c' => exact ih _ (constants_all_delattr c n h c' hdel)
          | error e => exact ih _ h

/-- C9: starting from class creation, every sequence of attribute-set and
attribute-delete operations keeps every registered name satisfying
`is_const`. -/
theorem C9_registry_only_constant_names (nm : String) (own inh : NS)
    (ops : List ClassOp) :
    ((runOps (mkConstClass nm own inh) ops).constants).all
      (fun n => is_const n) = true :=
  constants_all_runOps ops _ (constants_all_mk nm own inh)

/-- C10: when the underlying deletion fails because the attribute is not
directly on the class, `__delattr__` raises and the registry — indeed the
whole class state — is left unchanged. -/
theorem C10_failed_delete_keeps_registry (c : ConstClass) (nm : String) :
    hasKey c.ownAttrs nm = false →
      c.delattr nm = .error (.attributeError nm) ∧ runOps c [.del nm] = c := by
  intro h
  have hdel : c.delattr nm = .error (.attributeError nm) := by
    unfold ConstClass.delattr ConstClass.type_delattr
    rw [if_neg (by simp [h])]
  refine ⟨hdel, ?_⟩
  simp [runOps, hdel]

/-- Witness for C10: deleting the never-defined attribute `E` from
`MathConsts`. -/
theorem C10_failed_delete_keeps_registry_witness :
    MathConsts.delattr "E" = .error (.attributeError "E") ∧
    runOps MathConsts [.del "E"] = MathConsts :=
  C10_failed_delete_keeps_registry MathConsts "E" (by decide)

/-- C3: when the execution context is unavailable — `currentframe()`
returning no frame, or the current frame having no caller — scope-mode
`apply` raises instead of silently doing nothing, and no namespace is
produced (an error result is exactly "nothing written"). -/
theorem C3_apply_requires_context (c : ConstClass) (lcl override : Bool) :
    c.apply none lcl override =
      .error (.runtimeError "Cannot retrieve current frame") ∧
    (∀ cf : CurrentFrame, cf.f_back = none →
       c.apply (some cf) lcl override =
         .error (.attributeError (if lcl then "f_locals" else "f_globals"))) := by
  constructor
  · rfl
  · intro cf hback
    unfold ConstClass.apply
    dsimp only
    rw [hback]

/-- Witness for C3 at `MathConsts`. -/
theorem C3_apply_requires_context_witness :
    MathConsts.apply none false false =
      .error (.runtimeError "Cannot retrieve current frame") ∧
    MathConsts.apply (some ⟨none⟩) false false =
      .error (.attributeError "f_globals") :=
  ⟨(C3_apply_requires_context MathConsts false false).1,
   (C3_apply_requires_context MathConsts false false).2 ⟨none⟩ rfl⟩

/-- Counterexample to C1 as stated: scope-mode `apply` with
`override = false` into a caller scope that already defines `PI = 0` does
not skip `PI` — the existence check is `hasattr` on the scope's dict
object, which never matches a dict key — so the existing variable is
overwritten by the class's value. -/
theorem C1_scope_skip_counterexample :
    lookupNS [("PI", PyVal.num 0)] "PI" = some (PyVal.num 0) ∧
    MathConsts.apply (some ⟨some ⟨[], [("PI", PyVal.num 0)]⟩⟩) false false =
      .ok [("PI", PyVal.float (314159/100000))] ∧
    PyVal.float (314159/100000) ≠ PyVal.num 0 :=
  ⟨rfl, rfl, by decide⟩

/-- C1 (amended): module mode honours `override = false` — a name the
module already has keeps its value, and every registered name the module
lacks (or any registered name under `override = true`) receives the class's
current live value.  Scope mode's existence check `hasattr(namespace, name)`
runs against the caller's locals/globals dict object, which has no
constant-named attributes, so scope mode writes the live value of every
registered constant name regardless of `override`, overwriting existing
scope variables of the same name. -/
theorem C1_apply_override_semantics (c : ConstClass) (override : Bool)
    (name : String) :
    (∀ (modules : String → Option NS) (mname : String) (ns ns' : NS),
        modules mname = some ns →
        c.apply_to_module modules mname override = .ok ns' →
        ((override = false → hasKey ns name = true →
            lookupNS ns' name = lookupNS ns name) ∧
         (name ∈ c.constants → (override = true ∨ hasKey ns name = false) →
            lookupNS ns' name = c.getattr? name))) ∧
    (∀ (cf : CurrentFrame) (caller : Frame) (lcl : Bool) (ns' : NS),
        cf.f_back = some caller →
        c.apply (some cf) lcl override = .ok ns' →
        name ∈ c.constants → is_const name = true →
        lookupNS ns' name = c.getattr? name) := by
  constructor
  · intro modules mname ns ns' hmod happ
    unfold ConstClass.apply_to_module at happ
    rw [hmod] at happ
    dsimp only at happ
    cases hp : c.applyPriv override (.module ns) with
    | none => rw [hp] at happ; exact absurd happ (by simp)
    | some t =>
        rw [hp] at happ
        simp only [Except.ok.injEq] at happ
        subst happ
        exact applyPriv_spec c override name (.module ns) t hp
  · intro cf caller lcl ns' hback happ hmem hconst
    unfold ConstClass.apply at happ
    dsimp only at happ
    rw [hback] at happ
    dsimp only at happ
    cases hp : c.applyPriv override
        (.scopeDict (if lcl then caller.f_locals else caller.f_globals)) with
    | none => rw [hp] at happ; exact absurd happ (by simp)
    | some t =>
        rw [hp] at happ
        simp only [Except.ok.injEq] at happ
        subst happ
        refine (applyPriv_spec c override name _ t hp).2 hmem (Or.inr ?_)
        exact dictObjHasAttr_of_const name hconst

/-- Witness for C1 at `MathConsts`: module mode with `override = false`
keeps the module's `PI = 0`; scope mode with `override = false` still
receives the class's live value for `PI`. -/
theorem C1_apply_override_semantics_witness :
    MathConsts.apply_to_module modPI "target" false = .ok [("PI", PyVal.num 0)] ∧
    lookupNS [("PI", PyVal.num 0)] "PI" = lookupNS [("PI", PyVal.num 0)] "PI" ∧
    lookupNS [("PI", PyVal.float (314159/100000))] "PI" = MathConsts.getattr? "PI" :=
  ⟨rfl,
   ((C1_apply_override_semantics MathConsts false "PI").1 modPI "target"
      [("PI", PyVal.num 0)] [("PI", PyVal.num 0)] rfl rfl).1 rfl (by decide),
   (C1_apply_override_semantics MathConsts false "PI").2
     ⟨some ⟨[], [("PI", PyVal.num 0)]⟩⟩ ⟨[], [("PI", PyVal.num 0)]⟩ false
     [("PI", PyVal.float (314159/100000))] rfl rfl (by decide) (by decide)⟩
